import Mathlib

/-!
Verification of the control-plane claims for the streaming-SQL controller:
the rehydrating storage client (`rehydration.rs`) and the controller
multiplexer (`controller/src/lib.rs`).  The Rust code is shallowly embedded:
BTreeMaps become key-sorted association lists, machine integers become `Nat`
with explicit range checks where overflow matters, orchestrator / transport
calls become oracle parameters, and external side effects are recorded as
effect lists.
-/

namespace Mz

/-! ### Decimal digit codec

Rust formats `u64` identifiers with `Display` (decimal, no leading zeros)
and parses them back with `str::parse`.  `toDecimalAux` carries a structural
fuel of 64, which covers every number below `10^64` — far beyond the `u64`
identifier range used by the source — while keeping the function kernel
reducible on concrete inputs. -/

/-- The character for a single decimal digit value. -/
def digitChar (d : Nat) : Char := Char.ofNat (48 + d)

/-- The numeric value of a decimal digit character. -/
def digitVal (c : Char) : Nat := c.toNat - 48

/-- ASCII `[0-9]`, the byte-oriented `\d` class of the service-name regex
(the source compiles it with `(?-u)`). -/
def isDigitChar (c : Char) : Bool := decide (48 ≤ c.toNat) && decide (c.toNat ≤ 57)

/-- Little-endian decimal digits of `n`, with structural fuel. -/
def toDecimalAux : Nat → Nat → List Nat
  | 0, _ => []
  | fuel + 1, n => if n = 0 then [] else n % 10 :: toDecimalAux fuel (n / 10)

/-- The decimal rendering of `n` (most significant digit first), as produced
by Rust `Display` for unsigned integers.  Faithful for every `n < 10^64`. -/
def toDecimal (n : Nat) : List Char :=
  if n = 0 then ['0'] else ((toDecimalAux 64 n).reverse.map digitChar)

/-- Decimal parsing: the value denoted by a digit string, as computed by
`str::parse` on an in-range input. -/
def fromDecimal (l : List Char) : Nat :=
  l.foldl (fun a c => 10 * a + digitVal c) 0

/-- Largest value of the `u64` identifier types (`ComputeInstanceId`,
`ReplicaId`); `str::parse::<u64>` fails — and the source `unwrap`s — beyond
this bound. -/
def idMax : Nat := 2 ^ 64 - 1

/-! ### Literal matching (regex anchors and literal parts) -/

/-- Strip an exact literal from the front of `s`, returning the remainder. -/
def dropLit : List Char → List Char → Option (List Char)
  | [], s => some s
  | _ :: _, [] => none
  | c :: cs, d :: ds => if d = c then dropLit cs ds else none

/-- The characters of the literal `cluster-`. -/
def clusterChars : List Char := ['c', 'l', 'u', 's', 't', 'e', 'r', '-']

/-- The characters of the literal `-replica-`. -/
def replicaChars : List Char := ['-', 'r', 'e', 'p', 'l', 'i', 'c', 'a', '-']

/-! ### Service-name codec (`generate_replica_service_name` /
`parse_replica_service_name`) -/

/-- Embeds `generate_replica_service_name`: the string
`cluster-{instance_id}-replica-{replica_id}`. -/
def generateReplicaServiceName (instanceId replicaId : Nat) : List Char :=
  clusterChars ++ toDecimal instanceId ++ replicaChars ++ toDecimal replicaId

/-- Embeds `format!("cluster-{instance}")`, the instance-level service name
used by `drop_instance`. -/
def instanceServiceName (instanceId : Nat) : List Char :=
  clusterChars ++ toDecimal instanceId

/-- Result of `parse_replica_service_name`: a typed error for a
non-matching name, a Rust panic (the `unwrap` of `str::parse` on an
out-of-range number), or the parsed pair. -/
inductive ParseOutcome where
  | err
  | panics
  | ok (instanceId replicaId : Nat)
deriving DecidableEq

/-- Embeds `parse_replica_service_name`.  The regex
`(?-u)^cluster-(\d+)-replica-(\d+)$` is anchored at both ends and both
capture groups are maximal digit runs (a shorter run would have to be
followed by a digit where the pattern demands a literal), so matching is
equivalent to this deterministic split.  The two `str::parse(...).unwrap()`
calls panic when a captured number exceeds the `u64` range. -/
def parseReplicaServiceName (s : List Char) : ParseOutcome :=
  match dropLit clusterChars s with
  | none => .err
  | some s1 =>
    let d1 := s1.takeWhile isDigitChar
    let r1 := s1.dropWhile isDigitChar
    if d1 = [] then .err
    else
      match dropLit replicaChars r1 with
      | none => .err
      | some s2 =>
        let d2 := s2.takeWhile isDigitChar
        let r2 := s2.dropWhile isDigitChar
        if d2 = [] then .err
        else if r2 = [] then
          if fromDecimal d1 ≤ idMax then
            if fromDecimal d2 ≤ idMax then .ok (fromDecimal d1) (fromDecimal d2)
            else .panics
          else .panics
        else .err

/-- A decomposition of `s` witnessing that it matches the exact shape
`^cluster-(\d+)-replica-(\d+)$`. -/
abbrev ShapeDecomp (s d1 d2 : List Char) : Prop :=
  s = clusterChars ++ d1 ++ replicaChars ++ d2 ∧
    d1 ≠ [] ∧ d2 ≠ [] ∧
    (∀ c ∈ d1, isDigitChar c = true) ∧ (∀ c ∈ d2, isDigitChar c = true)

/-! ### Key-sorted association lists: the model of `BTreeMap<u64, V>`

`BTreeMap` iterates in strictly increasing key order; a key-sorted
association list with distinct keys reproduces lookup, insert-or-replace,
remove, and in-order `values()`. -/

/-- Association list keyed by `Nat`. -/
abbrev AList (α : Type) : Type := List (Nat × α)

/-- `BTreeMap::get`. -/
def lookupA {α : Type} : AList α → Nat → Option α
  | [], _ => none
  | (k, v) :: t, j => if j = k then some v else lookupA t j

/-- `BTreeMap::insert` (insert or replace), preserving key order. -/
def insertA {α : Type} : AList α → Nat → α → AList α
  | [], k, v => [(k, v)]
  | (k0, v0) :: t, k, v =>
    if k < k0 then (k, v) :: (k0, v0) :: t
    else if k = k0 then (k, v) :: t
    else (k0, v0) :: insertA t k v

/-- `BTreeMap::remove` (drops the entry for the key, if present). -/
def removeA {α : Type} : AList α → Nat → AList α
  | [], _ => []
  | (k0, v0) :: t, k => if k = k0 then t else (k0, v0) :: removeA t k

/-- `BTreeMap::values` in iteration (key) order. -/
def valuesA {α : Type} (m : AList α) : List α := m.map Prod.snd

/-- The `BTreeMap` representation invariant: keys strictly increase. -/
abbrev KeysOrdered {α : Type} (m : AList α) : Prop :=
  List.Pairwise (fun p q => p.1 < q.1) m

/-! ### Rehydrating storage client (`rehydration.rs`) -/

/-- Embeds `IngestSourceCommand<T>`: the per-source ingestion spec.  Only
the `id` field is inspected by the rehydration task; the rest of the spec
is an abstract payload. -/
structure IngestSourceCmd where
  id : Nat
  desc : Nat
deriving DecidableEq

/-- A frontier: an antichain of timestamps.  The rehydration task only asks
whether it is empty. -/
def Frontier : Type := List Nat

/-- Embeds `StorageCommand<T>`: the two storage command kinds. -/
inductive StorageCommandC where
  | ingestSources (specs : List IngestSourceCmd)
  | allowCompaction (frontiers : List (Nat × List Nat))
deriving DecidableEq

/-- Embeds `RehydrationTask::absorb_command`: `IngestSources` inserts each
spec by id; `AllowCompaction` removes the spec for each id whose frontier
is empty and does nothing for any other pair. -/
def absorbCommand (m : AList IngestSourceCmd) : StorageCommandC → AList IngestSourceCmd
  | .ingestSources specs =>
      specs.foldl (fun m ing => insertA m ing.id ing) m
  | .allowCompaction frontiers =>
      frontiers.foldl (fun m p => if p.2.isEmpty then removeA m p.1 else m) m

/-- Embeds `RehydrationTaskState`. -/
inductive RehydrationTaskState where
  | rehydrate
  | pump
  | done
deriving DecidableEq

/-- Externally visible actions of one step of the rehydration task. -/
inductive TaskEffect where
  | sentToBackend (c : StorageCommandC)
  | forwardedUpstream (resp : Nat)
deriving DecidableEq

/-- Embeds `RehydrationTask::send_response`.  `upOpen` is whether the
owner still holds the response receiver: an `Ok` response is forwarded
upstream and pumping continues, unless the upstream channel is closed, in
which case the task is done; an error response logs and rehydrates. -/
def sendResponseE (r : Except Unit Nat) (upOpen : Bool) :
    RehydrationTaskState × List TaskEffect :=
  match r with
  | .ok resp => if upOpen then (.pump, [.forwardedUpstream resp]) else (.done, [])
  | .error _ => (.rehydrate, [])

/-- Embeds `RehydrationTask::send_command`.  `sendOk` is the result of
`client.send(command)`: success keeps pumping; failure routes the error
through `send_response`, which triggers rehydration. -/
def sendCommandE (c : StorageCommandC) (sendOk : Bool) :
    RehydrationTaskState × List TaskEffect :=
  if sendOk then (.pump, [.sentToBackend c]) else sendResponseE (.error ()) true

/-- Embeds the emission half of `RehydrationTask::step_rehydrate`: after
`reconnect()` finally returns `Ok` (the retry loop with backoff clamped at
32 s is not modelled — the claims start at its success), the task sends a
single synthetic `IngestSources` built from `ingestions.values()`. -/
def stepRehydrate (m : AList IngestSourceCmd) (sendOk : Bool) :
    RehydrationTaskState × List TaskEffect :=
  sendCommandE (.ingestSources (valuesA m)) sendOk

/-- The result of `client.recv()` as seen by `step_pump`:
`Ok(Some(resp))`, `Ok(None)` (graceful close), or `Err`. -/
inductive RecvResult where
  | recvOk (resp : Nat)
  | recvClosed
  | recvErr
deriving DecidableEq

/-- The event that wins the `select!` in `step_pump`, with the transport /
channel oracles it depends on. -/
inductive PumpEvent where
  | cmdChannelClosed
  | cmdArrived (c : StorageCommandC) (sendOk : Bool)
  | recvReturned (r : RecvResult) (upOpen : Bool)
deriving DecidableEq

/-- Embeds `RehydrationTask::step_pump`: a closed command channel ends the
task; an inbound command is absorbed and then sent; a transport `recv`
result is routed through `send_response`, with `Ok(None)` converted to an
error first. -/
def stepPump (m : AList IngestSourceCmd) (ev : PumpEvent) :
    RehydrationTaskState × AList IngestSourceCmd × List TaskEffect :=
  match ev with
  | .cmdChannelClosed => (.done, m, [])
  | .cmdArrived c sendOk =>
      let m2 := absorbCommand m c
      let r := sendCommandE c sendOk
      (r.1, m2, r.2)
  | .recvReturned rr upOpen =>
      let r :=
        match rr with
        | .recvOk resp => sendResponseE (.ok resp) upOpen
        | .recvClosed => sendResponseE (.error ()) upOpen
        | .recvErr => sendResponseE (.error ()) upOpen
      (r.1, m, r.2)

/-- The command log stores each spec under its own id. -/
abbrev WFids (m : AList IngestSourceCmd) : Prop := ∀ p ∈ m, (p.2).id = p.1

/-- Whether a task effect is the sending of an `AllowCompaction` command to
the backend. -/
def isCompactionSend : TaskEffect → Bool
  | .sentToBackend (.allowCompaction _) => true
  | _ => false

/-! ### Controller multiplexer (`controller/src/lib.rs`) -/

/-- Modelled from the spec: `ComputeControllerState` lives in
`mz_compute_client` (not under the covered source).  Per the spec's data
model it owns the instance's replica map; only the set of replica ids is
relevant to the claims here, and `get_replica_ids` enumerates it. -/
structure InstanceState where
  replicas : List Nat
deriving DecidableEq

/-- Modelled from the spec: `ComputeControllerState::new` builds a fresh
instance state with no replicas attached. -/
def freshInstanceState : InstanceState := ⟨[]⟩

/-- Modelled from the spec: `add_replica` wires the new replica id into the
instance's replica map. -/
def addReplicaS (rid : Nat) (st : InstanceState) : InstanceState :=
  ⟨if st.replicas.contains rid then st.replicas else st.replicas ++ [rid]⟩

/-- Modelled from the spec: `remove_replica` removes the replica id from
the instance's replica map. -/
def removeReplicaS (rid : Nat) (st : InstanceState) : InstanceState :=
  ⟨st.replicas.filter (fun x => x != rid)⟩

/-- Result of an orchestrator RPC (`ensure_service` / `drop_service`),
supplied as an oracle. -/
inductive RpcResult where
  | rpcOk
  | rpcErr
deriving DecidableEq

/-- The one compute command the embedded operations send directly. -/
inductive ComputeCmdC where
  | dropInstanceCmd
deriving DecidableEq

/-- Externally visible orchestrator / backend actions of a controller
operation. -/
inductive OrchEffect where
  | ensuredService (name : List Char)
  | droppedService (name : List Char)
  | sentComputeCmd (instanceId : Nat) (c : ComputeCmdC)
deriving DecidableEq

/-- Embeds `StorageResponse<T>`: frontier advances carry change batches
(lists of `(time, diff)` per collection); the timestamp-binding payload is
abstract. -/
inductive StorageRespMsg where
  | frontierUppers (updates : List (Nat × List (Nat × Int)))
  | linearizedTimestamps (payload : Nat)
deriving DecidableEq

/-- Embeds `TailResponse<T>`: a batch with its lower and upper frontiers
(payload abstract), or the dropped-at frontier. -/
inductive TailRespMsg where
  | batch (lower upper : List Nat) (payload : Nat)
  | droppedAt (frontier : List Nat)
deriving DecidableEq

/-- Embeds `ComputeResponse<T>`. -/
inductive ComputeRespMsg where
  | frontierUppers (updates : List (Nat × List (Nat × Int)))
  | peekResponse (uuid payload otel : Nat)
  | tailResponse (gid : Nat) (t : TailRespMsg)
deriving DecidableEq

/-- Embeds `ActiveReplicationResponse<T>`. -/
inductive ActiveReplicationResp where
  | computeResponse (r : ComputeRespMsg)
  | replicaHeartbeat (rid t : Nat)
deriving DecidableEq

/-- Embeds `UnderlyingControllerResponse<T>`: the single-slot stash
contents. -/
inductive UnderlyingResponse where
  | storageResp (r : StorageRespMsg)
  | computeResp (iid : Nat) (r : ActiveReplicationResp)
deriving DecidableEq

/-- Embeds `ControllerResponse<T>`. -/
inductive ControllerResponseC where
  | peekResponse (uuid payload otel : Nat)
  | tailResponse (gid : Nat) (t : TailRespMsg)
  | linearizedTimestamps (payload : Nat)
  | computeReplicaHeartbeat (rid t : Nat)
deriving DecidableEq

/-- Embeds the `Controller` state owned by the multiplexer: the map of
compute instance states and the single-slot response stash.  The storage
controller and orchestrator handles are external services, modelled as
oracles and effects. -/
structure ControllerSt where
  compute : AList InstanceState
  stashed : Option UnderlyingResponse
deriving DecidableEq

/-- Rust-level result of a fallible controller operation. -/
inductive ControllerResult where
  | resOk
  | resErr
deriving DecidableEq

/-- Outcome of a controller operation: an aborting panic (`assert!` or
`unwrap`), or completion with a result, the post state, and the external
actions taken. -/
inductive OpOutcome where
  | panicked
  | completed (r : ControllerResult) (s : ControllerSt) (eff : List OrchEffect)
deriving DecidableEq

/-- The replica configuration, reduced to the distinction the operations
branch on: externally hosted (`Remote`, host list elided) versus
orchestrator-managed (`Managed`, size profile and availability zone
elided — they only shape the `ServiceConfig` payload). -/
inductive ReplicaCfg where
  | remote
  | managed
deriving DecidableEq

/-- Embeds `Controller::create_instance`: unconditionally inserts a fresh
`ComputeControllerState` for the id — note there is no existence check, so
an existing entry is replaced. -/
def createInstance (s : ControllerSt) (iid : Nat) : ControllerSt :=
  { s with compute := insertA s.compute iid freshInstanceState }

/-- Embeds `Controller::add_replica_to_instance`: asserts the instance
exists (panic otherwise); for `Remote`, wires the replica directly; for
`Managed`, calls `ensure_service` and propagates its error *before*
mutating, wiring the replica only on RPC success. -/
def addReplicaToInstance (s : ControllerSt) (iid rid : Nat) (cfg : ReplicaCfg)
    (rpc : RpcResult) : OpOutcome :=
  match lookupA s.compute iid with
  | none => .panicked
  | some st =>
    match cfg with
    | .remote =>
        .completed .resOk
          { s with compute := insertA s.compute iid (addReplicaS rid st) } []
    | .managed =>
      match rpc with
      | .rpcErr =>
          .completed .resErr s [.ensuredService (generateReplicaServiceName iid rid)]
      | .rpcOk =>
          .completed .resOk
            { s with compute := insertA s.compute iid (addReplicaS rid st) }
            [.ensuredService (generateReplicaServiceName iid rid)]

/-- Embeds `Controller::drop_replica`: for `Managed`, first calls
`drop_service`, propagating its error with no state change; then (and for
`Remote` immediately) unwraps the instance handle (panic if absent) and
removes the replica. -/
def dropReplica (s : ControllerSt) (iid rid : Nat) (cfg : ReplicaCfg)
    (rpc : RpcResult) : OpOutcome :=
  let fin := fun (eff : List OrchEffect) =>
    match lookupA s.compute iid with
    | none => OpOutcome.panicked
    | some st =>
        .completed .resOk
          { s with compute := insertA s.compute iid (removeReplicaS rid st) } eff
  match cfg with
  | .managed =>
    match rpc with
    | .rpcErr => .completed .resErr s [.droppedService (generateReplicaServiceName iid rid)]
    | .rpcOk => fin [.droppedService (generateReplicaServiceName iid rid)]
  | .remote => fin []

/-- Embeds `Controller::drop_instance`: an absent id returns `Ok` silently
with no effect; otherwise the entry is removed from the map (by
`compute.remove`), the task then asserts no replica remains (panic
otherwise), asks the orchestrator to drop `cluster-{instance}` —
propagating its error with the entry already removed — and finally sends
`DropInstance`. -/
def dropInstance (s : ControllerSt) (iid : Nat) (rpc : RpcResult) : OpOutcome :=
  match lookupA s.compute iid with
  | none => .completed .resOk s []
  | some st =>
    let s2 : ControllerSt := { s with compute := removeA s.compute iid }
    if st.replicas = [] then
      match rpc with
      | .rpcErr => .completed .resErr s2 [.droppedService (instanceServiceName iid)]
      | .rpcOk =>
          .completed .resOk s2
            [.droppedService (instanceServiceName iid),
             .sentComputeCmd iid .dropInstanceCmd]
    else .panicked

/-- Outcome of `Controller::ready`: completion with `Ok(())`, or an
await that never resolves (no backend produced a response). -/
inductive ReadyOutcome where
  | completedOk
  | pendingForever
deriving DecidableEq

/-- Embeds `Controller::ready`.  `arrival` is the oracle for the inner
`select!`: the next response produced by any backend, if one arrives.  A
full stash short-circuits: `ready` returns `Ok(())` immediately and touches
nothing.  Otherwise the arrival is stashed and `ready` completes. -/
def readyC (s : ControllerSt) (arrival : Option UnderlyingResponse) :
    ReadyOutcome × ControllerSt :=
  if s.stashed.isSome then (.completedOk, s)
  else
    match arrival with
    | some r => (.completedOk, { s with stashed := some r })
    | none => (.pendingForever, s)

/-- The bookkeeping calls `process` makes on the storage controller /
instance state (`update_write_frontiers`, `remove_peeks`), recorded as
effects — those functions live outside the covered source. -/
inductive ProcessEffect where
  | updatedStorageFrontiers (updates : List (Nat × List (Nat × Int)))
  | updatedComputeFrontiers (iid : Nat) (updates : List (Nat × List (Nat × Int)))
  | removedPeek (iid uuid : Nat)
deriving DecidableEq

/-- Rust-level result of `Controller::process`. -/
inductive PRes where
  | perr
  | pok (r : Option ControllerResponseC)
deriving DecidableEq

/-- Outcome of `Controller::process`. -/
inductive ProcessOutcome where
  | panicked
  | completed (r : PRes) (s : ControllerSt) (eff : List ProcessEffect)
deriving DecidableEq

/-- Embeds the `ChangeBatch` construction in `process`'s `TailResponse`
arm: a batch adds its upper frontier at `+1` and its lower at `-1`; a
`DroppedAt` retracts the frontier at `-1`. -/
def tailChanges : TailRespMsg → List (Nat × Int)
  | .batch lower upper _ =>
      upper.map (fun t => (t, (1 : Int))) ++ lower.map (fun t => (t, (-1 : Int)))
  | .droppedAt frontier => frontier.map (fun t => (t, (-1 : Int)))

/-- Embeds `Controller::process`.  The stash is `take`n first (panic via
`expect` if empty); the response is then dispatched, with the fallible
bookkeeping calls (`update_write_frontiers`, `remove_peeks`) given by the
`bookOk` oracle and recorded as effects, and absent compute instances
panicking via `expect`. -/
def processC (s : ControllerSt) (bookOk : RpcResult) : ProcessOutcome :=
  match s.stashed with
  | none => .panicked
  | some resp =>
    let s2 : ControllerSt := { s with stashed := none }
    match resp with
    | .storageResp (.frontierUppers updates) =>
      (match bookOk with
       | .rpcErr => .completed .perr s2 [.updatedStorageFrontiers updates]
       | .rpcOk => .completed (.pok none) s2 [.updatedStorageFrontiers updates])
    | .storageResp (.linearizedTimestamps p) =>
        .completed (.pok (some (.linearizedTimestamps p))) s2 []
    | .computeResp iid (.computeResponse cr) =>
      (match lookupA s2.compute iid with
       | none => .panicked
       | some _ =>
         match cr with
         | .frontierUppers updates =>
           (match bookOk with
            | .rpcErr => .completed .perr s2 [.updatedComputeFrontiers iid updates]
            | .rpcOk => .completed (.pok none) s2 [.updatedComputeFrontiers iid updates])
         | .peekResponse uuid payload otel =>
           (match bookOk with
            | .rpcErr => .completed .perr s2 [.removedPeek iid uuid]
            | .rpcOk =>
                .completed (.pok (some (.peekResponse uuid payload otel))) s2
                  [.removedPeek iid uuid])
         | .tailResponse gid t =>
           (match bookOk with
            | .rpcErr =>
                .completed .perr s2 [.updatedComputeFrontiers iid [(gid, tailChanges t)]]
            | .rpcOk =>
                .completed (.pok (some (.tailResponse gid t))) s2
                  [.updatedComputeFrontiers iid [(gid, tailChanges t)]]))
    | .computeResp _ (.replicaHeartbeat rid t) =>
        .completed (.pok (some (.computeReplicaHeartbeat rid t))) s2 []

end Mz

namespace Mz

/-! ### Theorems: decimal codec -/

theorem toDecimalAux_eq_digits :
    ∀ (fuel n : Nat), n < 10 ^ fuel → toDecimalAux fuel n = Nat.digits 10 n := by
  intro fuel
  induction fuel with
  | zero =>
    intro n hn
    interval_cases n
    simp [toDecimalAux]
  | succ fuel ih =>
    intro n hn
    by_cases h0 : n = 0
    · subst h0; simp [toDecimalAux]
    · rw [toDecimalAux, if_neg h0, Nat.digits_def' (by norm_num) (Nat.pos_of_ne_zero h0)]
      congr 1
      refine ih _ ?_
      have hlt : n / 10 < 10 ^ fuel := by
        rw [Nat.div_lt_iff_lt_mul (by norm_num)]
        calc n < 10 ^ (fuel + 1) := hn
        _ = 10 ^ fuel * 10 := by ring
      exact hlt

theorem digitVal_digitChar {d : Nat} (h : d < 10) : digitVal (digitChar d) = d := by
  interval_cases d <;> rfl

theorem isDigitChar_digitChar {d : Nat} (h : d < 10) : isDigitChar (digitChar d) = true := by
  interval_cases d <;> rfl

theorem fromDecimal_foldl (l : List Nat) :
    ∀ a : Nat, (∀ d ∈ l, d < 10) →
      List.foldl (fun a c => 10 * a + digitVal c) a (l.map digitChar) =
        a * 10 ^ l.length + Nat.ofDigits 10 l.reverse := by
  induction l with
  | nil => intro a _; simp [Nat.ofDigits_nil]
  | cons d t ih =>
    intro a hd
    have hd0 : d < 10 := hd d (List.mem_cons_self d t)
    have ht : ∀ x ∈ t, x < 10 := fun x hx => hd x (List.mem_cons_of_mem d hx)
    simp only [List.map_cons, List.foldl_cons, digitVal_digitChar hd0]
    rw [ih (10 * a + d) ht]
    simp only [List.reverse_cons, Nat.ofDigits_append, List.length_cons, List.length_reverse,
      Nat.ofDigits_singleton]
    ring

theorem fromDecimal_toDecimal {n : Nat} (h : n < 10 ^ 64) :
    fromDecimal (toDecimal n) = n := by
  by_cases h0 : n = 0
  · subst h0; rfl
  · have hdig := toDecimalAux_eq_digits 64 n h
    have hlt : ∀ d ∈ (Nat.digits 10 n).reverse, d < 10 := by
      intro d hdm
      exact Nat.digits_lt_base (by norm_num) (List.mem_reverse.mp hdm)
    unfold toDecimal fromDecimal
    rw [if_neg h0, hdig]
    rw [fromDecimal_foldl _ 0 hlt]
    simp [Nat.ofDigits_digits]

theorem toDecimal_all_digits {n : Nat} (h : n < 10 ^ 64) :
    ∀ c ∈ toDecimal n, isDigitChar c = true := by
  by_cases h0 : n = 0
  · subst h0; intro c hc; simp only [toDecimal, if_pos rfl, List.mem_singleton] at hc
    simp only [reduceIte, List.mem_singleton] at hc
    subst hc; rfl
  · intro c hc
    unfold toDecimal at hc
    rw [if_neg h0, toDecimalAux_eq_digits 64 n h] at hc
    rcases List.mem_map.mp hc with ⟨d, hdm, rfl⟩
    exact isDigitChar_digitChar (Nat.digits_lt_base (by norm_num) (List.mem_reverse.mp hdm))

theorem toDecimal_ne_nil {n : Nat} (h : n < 10 ^ 64) : toDecimal n ≠ [] := by
  by_cases h0 : n = 0
  · subst h0; simp [toDecimal]
  · unfold toDecimal
    rw [if_neg h0, toDecimalAux_eq_digits 64 n h]
    simp [Nat.digits_ne_nil_iff_ne_zero.mpr h0]

/-! ### Theorems: literal stripping and digit runs -/

theorem dropLit_append (lit : List Char) : ∀ rest, dropLit lit (lit ++ rest) = some rest := by
  induction lit with
  | nil => intro rest; rfl
  | cons c cs ih => intro rest; simp [dropLit, ih]

theorem eq_append_of_dropLit :
    ∀ (lit s t : List Char), dropLit lit s = some t → s = lit ++ t := by
  intro lit
  induction lit with
  | nil => intro s t h; simp [dropLit] at h; simp [h]
  | cons c cs ih =>
    intro s t h
    match s with
    | [] => simp [dropLit] at h
    | d :: ds =>
      simp only [dropLit] at h
      by_cases hdc : d = c
      · rw [if_pos hdc] at h
        subst hdc
        simp [ih ds t h]
      · rw [if_neg hdc] at h; exact absurd h (by simp)

theorem takeWhile_append_stop (p : Char → Bool) :
    ∀ (l1 : List Char) (c : Char) (l2 : List Char),
      (∀ x ∈ l1, p x = true) → p c = false →
        (l1 ++ c :: l2).takeWhile p = l1 ∧ (l1 ++ c :: l2).dropWhile p = c :: l2 := by
  intro l1
  induction l1 with
  | nil =>
    intro c l2 _ hc
    constructor
    · simp [List.takeWhile, hc]
    · simp [List.dropWhile, hc]
  | cons a t ih =>
    intro c l2 hall hc
    have ha : p a = true := hall a (List.mem_cons_self a t)
    have ht : ∀ x ∈ t, p x = true := fun x hx => hall x (List.mem_cons_of_mem a hx)
    have := ih c l2 ht hc
    constructor
    · simp [List.takeWhile, ha, this.1]
    · simp [List.dropWhile, ha, this.2]

theorem takeWhile_all_of (p : Char → Bool) :
    ∀ l : List Char, (∀ x ∈ l, p x = true) →
      l.takeWhile p = l ∧ l.dropWhile p = [] := by
  intro l
  induction l with
  | nil => intro _; constructor <;> rfl
  | cons a t ih =>
    intro hall
    have ha : p a = true := hall a (List.mem_cons_self a t)
    have ht := ih fun x hx => hall x (List.mem_cons_of_mem a hx)
    constructor
    · simp [List.takeWhile, ha, ht.1]
    · simp [List.dropWhile, ha, ht.2]

/-! ### Theorems: service-name parser against the regex shape -/

theorem parse_of_shapeDecomp {s d1 d2 : List Char} (h : ShapeDecomp s d1 d2) :
    parseReplicaServiceName s =
      (if fromDecimal d1 ≤ idMax then
        if fromDecimal d2 ≤ idMax then ParseOutcome.ok (fromDecimal d1) (fromDecimal d2)
        else ParseOutcome.panics
      else ParseOutcome.panics) := by
  obtain ⟨hs, h1ne, h2ne, h1d, h2d⟩ := h
  subst hs
  have hdrop1 : dropLit clusterChars (clusterChars ++ d1 ++ replicaChars ++ d2) =
      some (d1 ++ replicaChars ++ d2) := by
    rw [List.append_assoc, List.append_assoc]
    rw [dropLit_append]
    simp [List.append_assoc]
  have hmid : d1 ++ replicaChars ++ d2 = d1 ++ '-' :: (['r', 'e', 'p', 'l', 'i', 'c', 'a', '-'] ++ d2) := by
    simp [replicaChars]
  have hrun1 := takeWhile_append_stop isDigitChar d1 '-'
    (['r', 'e', 'p', 'l', 'i', 'c', 'a', '-'] ++ d2) h1d (by rfl)
  have hrun2 := takeWhile_all_of isDigitChar d2 h2d
  unfold parseReplicaServiceName
  rw [hdrop1]
  simp only [hmid, hrun1.1, hrun1.2]
  rw [if_neg h1ne]
  have hdrop2 : dropLit replicaChars ('-' :: (['r', 'e', 'p', 'l', 'i', 'c', 'a', '-'] ++ d2)) =
      some d2 := by
    have : ('-' :: (['r', 'e', 'p', 'l', 'i', 'c', 'a', '-'] ++ d2)) = replicaChars ++ d2 := by
      simp [replicaChars]
    rw [this, dropLit_append]
  rw [hdrop2]
  simp only [hrun2.1, hrun2.2]
  rw [if_neg h2ne]
  simp

theorem shapeDecomp_of_parse {s : List Char} (h : parseReplicaServiceName s ≠ .err) :
    ∃ d1 d2, ShapeDecomp s d1 d2 := by
  unfold parseReplicaServiceName at h
  cases hdrop1 : dropLit clusterChars s with
  | none => rw [hdrop1] at h; exact absurd rfl h
  | some s1 =>
    rw [hdrop1] at h
    simp only at h
    by_cases h1 : s1.takeWhile isDigitChar = []
    · rw [if_pos h1] at h; exact absurd rfl h
    · rw [if_neg h1] at h
      cases hdrop2 : dropLit replicaChars (s1.dropWhile isDigitChar) with
      | none => rw [hdrop2] at h; exact absurd rfl h
      | some s2 =>
        rw [hdrop2] at h
        simp only at h
        by_cases h2 : s2.takeWhile isDigitChar = []
        · rw [if_pos h2] at h; exact absurd rfl h
        · rw [if_neg h2] at h
          by_cases h3 : s2.dropWhile isDigitChar = []
          · refine ⟨s1.takeWhile isDigitChar, s2.takeWhile isDigitChar, ?_, h1, h2, ?_, ?_⟩
            · have hs : s = clusterChars ++ s1 := eq_append_of_dropLit _ _ _ hdrop1
              have hr1 : s1.dropWhile isDigitChar = replicaChars ++ s2 :=
                eq_append_of_dropLit _ _ _ hdrop2
              have hs2 : s2 = s2.takeWhile isDigitChar := by
                have := List.takeWhile_append_dropWhile (p := isDigitChar) (l := s2)
                rw [h3, List.append_nil] at this
                exact this.symm
              calc s = clusterChars ++ s1 := hs
                _ = clusterChars ++ (s1.takeWhile isDigitChar ++ s1.dropWhile isDigitChar) := by
                    rw [List.takeWhile_append_dropWhile]
                _ = clusterChars ++ (s1.takeWhile isDigitChar ++ (replicaChars ++ s2)) := by
                    rw [hr1]
                _ = clusterChars ++ s1.takeWhile isDigitChar ++ replicaChars ++ s2 := by
                    simp [List.append_assoc]
                _ = clusterChars ++ s1.takeWhile isDigitChar ++ replicaChars ++
                      s2.takeWhile isDigitChar := by rw [← hs2]
            · intro c hc; exact List.mem_takeWhile_imp hc
            · intro c hc; exact List.mem_takeWhile_imp hc
          · rw [if_neg h3] at h; exact absurd rfl h

/-! ### Theorems: association-list model of `BTreeMap` -/

theorem lookupA_insertA_self {α : Type} :
    ∀ (m : AList α) (k : Nat) (v : α), lookupA (insertA m k v) k = some v := by
  intro m
  induction m with
  | nil => intro k v; simp [insertA, lookupA]
  | cons p t ih =>
    intro k v
    obtain ⟨k0, v0⟩ := p
    by_cases h1 : k < k0
    · simp [insertA, if_pos h1, lookupA]
    · by_cases h2 : k = k0
      · simp [insertA, if_neg h1, if_pos h2, lookupA]
      · simp only [insertA, if_neg h1, if_neg h2, lookupA, if_neg h2]
        exact ih k v

theorem lookupA_insertA_ne {α : Type} :
    ∀ (m : AList α) (k : Nat) (v : α) (j : Nat), j ≠ k →
      lookupA (insertA m k v) j = lookupA m j := by
  intro m
  induction m with
  | nil => intro k v j hne; simp [insertA, lookupA, if_neg hne]
  | cons p t ih =>
    intro k v j hne
    obtain ⟨k0, v0⟩ := p
    by_cases h1 : k < k0
    · simp only [insertA, if_pos h1, lookupA, if_neg hne]
    · by_cases h2 : k = k0
      · subst h2
        simp only [insertA, if_neg h1, if_pos rfl, lookupA, if_neg hne]
      · simp only [insertA, if_neg h1, if_neg h2, lookupA]
        by_cases h3 : j = k0
        · simp only [if_pos h3]
        · simp only [if_neg h3]
          exact ih k v j hne

theorem lookupA_removeA_ne {α : Type} :
    ∀ (m : AList α) (k j : Nat), j ≠ k → lookupA (removeA m k) j = lookupA m j := by
  intro m
  induction m with
  | nil => intro k j _; rfl
  | cons p t ih =>
    intro k j hne
    obtain ⟨k0, v0⟩ := p
    by_cases h1 : k = k0
    · subst h1
      simp [removeA, lookupA, if_neg hne]
    · simp only [removeA, if_neg h1, lookupA]
      by_cases h2 : j = k0
      · simp only [if_pos h2]
      · simp only [if_neg h2]
        exact ih k j hne

theorem lookupA_eq_none_of_forall_ne {α : Type} :
    ∀ (m : AList α) (k : Nat), (∀ p ∈ m, p.1 ≠ k) → lookupA m k = none := by
  intro m
  induction m with
  | nil => intro k _; rfl
  | cons p t ih =>
    intro k hall
    obtain ⟨k0, v0⟩ := p
    have hk0 : k0 ≠ k := hall (k0, v0) (List.mem_cons_self _ _)
    simp only [lookupA, if_neg (fun h => hk0 (Eq.symm h))]
    exact ih k fun q hq => hall q (List.mem_cons_of_mem _ hq)

theorem removeA_sublist {α : Type} :
    ∀ (m : AList α) (k : Nat), List.Sublist (removeA m k) m := by
  intro m
  induction m with
  | nil => intro k; simp [removeA]
  | cons p t ih =>
    intro k
    obtain ⟨k0, v0⟩ := p
    by_cases h1 : k = k0
    · simp only [removeA, if_pos h1]
      exact List.sublist_cons_self _ _
    · simp only [removeA, if_neg h1]
      exact List.Sublist.cons₂ _ (ih k)

theorem keysOrdered_removeA {α : Type} {m : AList α} (h : KeysOrdered m) (k : Nat) :
    KeysOrdered (removeA m k) :=
  List.Pairwise.sublist (removeA_sublist m k) h

theorem lookupA_removeA_self {α : Type} :
    ∀ (m : AList α), KeysOrdered m → ∀ k, lookupA (removeA m k) k = none := by
  intro m
  induction m with
  | nil => intro _ k; rfl
  | cons p t ih =>
    intro h k
    obtain ⟨k0, v0⟩ := p
    have h' := (List.pairwise_cons.mp h)
    by_cases h1 : k = k0
    · subst h1
      simp only [removeA, if_pos rfl]
      exact lookupA_eq_none_of_forall_ne t k fun q hq => Nat.ne_of_gt (h'.1 q hq)
    · simp only [removeA, if_neg h1, lookupA, if_neg h1]
      exact ih h'.2 k

theorem mem_insertA {α : Type} :
    ∀ (m : AList α) (k : Nat) (v : α) (q : Nat × α),
      q ∈ insertA m k v → q = (k, v) ∨ q ∈ m := by
  intro m
  induction m with
  | nil => intro k v q hq; simp [insertA] at hq; left; exact hq
  | cons p t ih =>
    intro k v q hq
    obtain ⟨k0, v0⟩ := p
    by_cases h1 : k < k0
    · simp only [insertA, if_pos h1, List.mem_cons] at hq
      rcases hq with h | h | h
      · left; exact h
      · right; simp [h]
      · right; simp [h]
    · by_cases h2 : k = k0
      · simp only [insertA, if_neg h1, if_pos h2, List.mem_cons] at hq
        rcases hq with h | h
        · left; exact h
        · right; simp [h]
      · simp only [insertA, if_neg h1, if_neg h2, List.mem_cons] at hq
        rcases hq with h | h
        · right; simp [h]
        · rcases ih k v q h with h3 | h3
          · left; exact h3
          · right; simp [h3]

theorem keysOrdered_insertA {α : Type} :
    ∀ (m : AList α), KeysOrdered m → ∀ (k : Nat) (v : α), KeysOrdered (insertA m k v) := by
  intro m
  induction m with
  | nil => intro _ k v; simp [insertA, KeysOrdered]
  | cons p t ih =>
    intro h k v
    obtain ⟨k0, v0⟩ := p
    have h' := (List.pairwise_cons.mp h)
    by_cases h1 : k < k0
    · simp only [insertA, if_pos h1]
      refine List.pairwise_cons.mpr ⟨?_, h⟩
      intro q hq
      rcases List.mem_cons.mp hq with h3 | h3
      · subst h3; exact h1
      · exact h1.trans (h'.1 q h3)
    · by_cases h2 : k = k0
      · subst h2
        simp only [insertA, if_neg h1, if_pos rfl]
        exact List.pairwise_cons.mpr ⟨fun q hq => h'.1 q hq, h'.2⟩
      · have hgt : k0 < k := by omega
        simp only [insertA, if_neg h1, if_neg h2]
        refine List.pairwise_cons.mpr ⟨?_, ih h'.2 k v⟩
        intro q hq
        rcases mem_insertA t k v q hq with h3 | h3
        · subst h3; exact hgt
        · exact h'.1 q h3

theorem lookupA_eq_some_iff {α : Type} :
    ∀ (m : AList α), KeysOrdered m → ∀ (k : Nat) (v : α),
      (lookupA m k = some v ↔ (k, v) ∈ m) := by
  intro m
  induction m with
  | nil => intro _ k v; simp [lookupA]
  | cons p t ih =>
    intro h k v
    obtain ⟨k0, v0⟩ := p
    have h' := (List.pairwise_cons.mp h)
    constructor
    · intro hl
      simp only [lookupA] at hl
      by_cases h1 : k = k0
      · rw [if_pos h1] at hl
        subst h1
        simp only [Option.some.injEq] at hl
        subst hl
        exact List.mem_cons_self _ _
      · rw [if_neg h1] at hl
        exact List.mem_cons_of_mem _ ((ih h'.2 k v).mp hl)
    · intro hm
      rcases List.mem_cons.mp hm with h3 | h3
      · injection h3 with hk hv
        subst hk
        subst hv
        simp [lookupA]
      · have hk : k0 < k := h'.1 (k, v) h3
        simp only [lookupA, if_neg (Nat.ne_of_gt hk)]
        exact (ih h'.2 k v).mpr h3

/-! ### Theorems: rehydrating client -/

theorem lookupA_absorb_allowCompaction :
    ∀ (fs : List (Nat × List Nat)) (m : AList IngestSourceCmd), KeysOrdered m →
      ∀ i : Nat,
        lookupA (absorbCommand m (.allowCompaction fs)) i =
          if fs.any (fun p => p.1 == i && p.2.isEmpty) then none else lookupA m i := by
  intro fs
  induction fs with
  | nil => intro m _ i; simp [absorbCommand]
  | cons p rest ih =>
    intro m hord i
    obtain ⟨pid, pf⟩ := p
    show lookupA (List.foldl _ (if pf.isEmpty then removeA m pid else m) rest) i = _
    by_cases hemp : pf.isEmpty
    · rw [if_pos hemp]
      have hord2 : KeysOrdered (removeA m pid) := keysOrdered_removeA hord pid
      have := ih (removeA m pid) hord2 i
      rw [absorbCommand] at this
      rw [this]
      by_cases hid : pid = i
      · subst hid
        have hnone : lookupA (removeA m pid) pid = none := lookupA_removeA_self m hord pid
        simp [hemp, hnone]
      · have : lookupA (removeA m pid) i = lookupA m i := lookupA_removeA_ne m pid i
          (fun h => hid h.symm)
        rw [this]
        have hbeq : (pid == i) = false := by simp [hid]
        simp [hbeq]
    · rw [if_neg hemp]
      have := ih m hord i
      rw [absorbCommand] at this
      rw [this]
      have hbool : pf.isEmpty = false := by
        cases h : pf.isEmpty
        · rfl
        · exact absurd h hemp
      simp [hbool]

/-- C2 (claim as stated is false): absorbing `AllowCompaction [(1, [5])]`
into a log holding a spec for id 1 leaves the log literally unchanged.  The
command log's entire state is the spec map — no since frontier exists to be
updated to the join — and a subsequent successful rehydration replays only
the untouched `IngestSources`, with no compaction information. -/
theorem C2_counterexample :
    absorbCommand [(1, (⟨1, 0⟩ : IngestSourceCmd))] (.allowCompaction [(1, [5])]) =
      [(1, (⟨1, 0⟩ : IngestSourceCmd))] ∧
    stepRehydrate (absorbCommand [(1, (⟨1, 0⟩ : IngestSourceCmd))]
        (.allowCompaction [(1, [5])])) true =
      (.pump, [.sentToBackend (.ingestSources [⟨1, 0⟩])]) := by
  constructor
  · rfl
  · rfl

/-- C2 (amended): for every `AllowCompaction(frontiers)` command absorbed by
the rehydrating client and every id: if some pair `(id, frontier)` in the
command has an empty frontier, the stored spec for id is removed from the
command log; otherwise the log entry for id is unchanged — in particular a
pair with a non-empty frontier is ignored, and no since frontier is recorded
or updated. -/
theorem C2_allow_compaction_absorb (fs : List (Nat × List Nat))
    (m : AList IngestSourceCmd) (h : KeysOrdered m) (i : Nat) :
    lookupA (absorbCommand m (.allowCompaction fs)) i =
      if fs.any (fun p => p.1 == i && p.2.isEmpty) then none else lookupA m i :=
  lookupA_absorb_allowCompaction fs m h i

/-- C2 witness: on the two-entry log `{1, 2}`, the command
`AllowCompaction [(1, []), (2, [7])]` removes the spec for id 1 and leaves
the spec for id 2 untouched. -/
theorem C2_witness :
    KeysOrdered [(1, (⟨1, 0⟩ : IngestSourceCmd)), (2, ⟨2, 0⟩)] ∧
    lookupA (absorbCommand [(1, (⟨1, 0⟩ : IngestSourceCmd)), (2, ⟨2, 0⟩)]
      (.allowCompaction [(1, []), (2, [7])])) 1 = none ∧
    lookupA (absorbCommand [(1, (⟨1, 0⟩ : IngestSourceCmd)), (2, ⟨2, 0⟩)]
      (.allowCompaction [(1, []), (2, [7])])) 2 = some ⟨2, 0⟩ :=
  ⟨by decide,
   (C2_allow_compaction_absorb [(1, []), (2, [7])] _ (by decide) 1).trans (by decide),
   (C2_allow_compaction_absorb [(1, []), (2, [7])] _ (by decide) 2).trans (by decide)⟩

/-- C1 (claim as stated is false): with a one-spec command log, a
successful rehydration sends exactly one command — the synthetic
`IngestSources` — and zero `AllowCompaction` commands, where the claim
requires an `AllowCompaction` carrying the recorded sinces to follow. -/
theorem C1_counterexample :
    (stepRehydrate [(1, (⟨1, 2⟩ : IngestSourceCmd))] true).2 =
      [.sentToBackend (.ingestSources [⟨1, 2⟩])] ∧
    ((stepRehydrate [(1, (⟨1, 2⟩ : IngestSourceCmd))] true).2.filter
      isCompactionSend) = [] := by
  constructor
  · rfl
  · rfl

/-- C1 (amended): when the rehydrating client completes a reconnect, it
sends to the backend a single synthetic `IngestSources` command containing
exactly the live ingestion specs of its command log (in `BTreeMap` key
order) before forwarding any other command; no `AllowCompaction` is sent —
the log records no since frontiers.  A failure of that send routes the task
back to Rehydrate with nothing forwarded. -/
theorem C1_rehydrate_emission (m : AList IngestSourceCmd)
    (h1 : KeysOrdered m) (h2 : WFids m) :
    stepRehydrate m true = (.pump, [.sentToBackend (.ingestSources (valuesA m))]) ∧
    stepRehydrate m false = (.rehydrate, []) ∧
    (∀ spec : IngestSourceCmd, spec ∈ valuesA m ↔ lookupA m spec.id = some spec) ∧
    (∀ b : Bool, ((stepRehydrate m b).2.filter isCompactionSend) = []) := by
  refine ⟨rfl, rfl, ?_, ?_⟩
  · intro spec
    constructor
    · intro hv
      rcases List.mem_map.mp hv with ⟨p, hp, hps⟩
      have hid : spec.id = p.1 := by rw [← hps]; exact h2 p hp
      have hpair : (spec.id, spec) ∈ m := by
        rw [hid, ← hps]
        exact hp
      exact (lookupA_eq_some_iff m h1 spec.id spec).mpr hpair
    · intro hl
      have hpair := (lookupA_eq_some_iff m h1 spec.id spec).mp hl
      exact List.mem_map.mpr ⟨(spec.id, spec), hpair, rfl⟩
  · intro b
    cases b
    · rfl
    · rfl

/-- C1 witness: on the log holding the single spec `1 ↦ ⟨1, 2⟩`, a
successful reconnect emits exactly `IngestSources [⟨1, 2⟩]` and that spec is
exactly the live one. -/
theorem C1_witness :
    KeysOrdered [(1, (⟨1, 2⟩ : IngestSourceCmd))] ∧
    WFids [(1, (⟨1, 2⟩ : IngestSourceCmd))] ∧
    stepRehydrate [(1, (⟨1, 2⟩ : IngestSourceCmd))] true =
      (.pump, [.sentToBackend (.ingestSources [⟨1, 2⟩])]) :=
  ⟨by decide, by decide,
   (C1_rehydrate_emission [(1, ⟨1, 2⟩)] (by decide) (by decide)).1⟩

/-- C6 (claim as stated is false): in Pump, when the transport yields
`Ok(response)` but the owner has dropped the response receiver, the task
does not stay in Pump — it forwards nothing and terminates (Done). -/
theorem C6_counterexample :
    stepPump [(1, (⟨1, 2⟩ : IngestSourceCmd))] (.recvReturned (.recvOk 7) false) =
      (.done, [(1, (⟨1, 2⟩ : IngestSourceCmd))], []) ∧
    RehydrationTaskState.done ≠ RehydrationTaskState.pump := by
  constructor
  · rfl
  · decide

/-- C6 (amended): in the Pump state, an inbound command is absorbed into
the log and then sent, staying in Pump on send success and transitioning to
Rehydrate on send error; a transport `recv` of `Ok(None)` or `Err`
transitions to Rehydrate; `Ok(response)` forwards the response upstream and
stays in Pump provided the upstream response channel is open, and
transitions to Done when it is closed; a closed owner command channel
transitions to Done. -/
theorem C6_pump_behavior (m : AList IngestSourceCmd) (c : StorageCommandC)
    (resp : Nat) (b : Bool) :
    stepPump m .cmdChannelClosed = (.done, m, []) ∧
    stepPump m (.cmdArrived c true) = (.pump, absorbCommand m c, [.sentToBackend c]) ∧
    stepPump m (.cmdArrived c false) = (.rehydrate, absorbCommand m c, []) ∧
    stepPump m (.recvReturned .recvClosed b) = (.rehydrate, m, []) ∧
    stepPump m (.recvReturned .recvErr b) = (.rehydrate, m, []) ∧
    stepPump m (.recvReturned (.recvOk resp) true) = (.pump, m, [.forwardedUpstream resp]) ∧
    stepPump m (.recvReturned (.recvOk resp) false) = (.done, m, []) :=
  ⟨rfl, rfl, rfl, rfl, rfl, rfl, rfl⟩

/-! ### Theorems: service-name codec claims -/

/-- C7 (claim as stated is false): a 46-digit instance number gives a
string of the exact shape `^cluster-(\\d+)-replica-(\\d+)$` (witnessed by the
decomposition), yet the parser panics — `str::parse::<u64>().unwrap()`
aborts on overflow — instead of returning the parsed pair. -/
theorem C7_counterexample :
    ShapeDecomp (clusterChars ++ List.replicate 45 '9' ++ replicaChars ++ ['1'])
      (List.replicate 45 '9') ['1'] ∧
    parseReplicaServiceName
      (clusterChars ++ List.replicate 45 '9' ++ replicaChars ++ ['1']) = .panics := by
  constructor
  · decide
  · decide

/-- C7 (amended): a string that does not match the exact shape
`^cluster-(\\d+)-replica-(\\d+)$` is reported as a named failure (an error
value), never a panic; a string of that exact shape returns the parsed
`(instance_id, replica_id)` without panicking when both numbers are within
the `u64` identifier range, and panics (via the `unwrap` of `str::parse`)
when either number exceeds it. -/
theorem C7_parse_total (s d1 d2 : List Char) :
    (ShapeDecomp s d1 d2 →
      parseReplicaServiceName s =
        (if fromDecimal d1 ≤ idMax then
          if fromDecimal d2 ≤ idMax then ParseOutcome.ok (fromDecimal d1) (fromDecimal d2)
          else ParseOutcome.panics
        else ParseOutcome.panics)) ∧
    ((∀ e1 e2 : List Char, ¬ ShapeDecomp s e1 e2) → parseReplicaServiceName s = .err) := by
  constructor
  · intro h
    exact parse_of_shapeDecomp h
  · intro hno
    by_contra hne
    obtain ⟨e1, e2, hd⟩ := shapeDecomp_of_parse hne
    exact hno e1 e2 hd

/-- C7 witness: `cluster-7-replica-9` has the shape with in-range numbers
and parses to `(7, 9)` without panicking. -/
theorem C7_witness :
    ShapeDecomp (generateReplicaServiceName 7 9) ['7'] ['9'] ∧
    parseReplicaServiceName (generateReplicaServiceName 7 9) = .ok 7 9 :=
  ⟨by decide,
   ((C7_parse_total (generateReplicaServiceName 7 9) ['7'] ['9']).1 (by decide)).trans
     (by decide)⟩

/-- C8: the service-name codec round-trips: for every valid (u64) pair,
parsing the formatted name returns the original pair. -/
theorem C8_codec_roundtrip (i r : Nat) (hi : i ≤ idMax) (hr : r ≤ idMax) :
    parseReplicaServiceName (generateReplicaServiceName i r) = .ok i r := by
  have hmax : idMax < 10 ^ 64 := by decide
  have hi64 : i < 10 ^ 64 := lt_of_le_of_lt hi hmax
  have hr64 : r < 10 ^ 64 := lt_of_le_of_lt hr hmax
  have hshape : ShapeDecomp (generateReplicaServiceName i r) (toDecimal i) (toDecimal r) :=
    ⟨rfl, toDecimal_ne_nil hi64, toDecimal_ne_nil hr64,
     toDecimal_all_digits hi64, toDecimal_all_digits hr64⟩
  rw [parse_of_shapeDecomp hshape, fromDecimal_toDecimal hi64, fromDecimal_toDecimal hr64,
    if_pos hi, if_pos hr]

/-- C8 witness: `parse(format(12, 34)) = (12, 34)`. -/
theorem C8_witness :
    12 ≤ idMax ∧ 34 ≤ idMax ∧
    parseReplicaServiceName (generateReplicaServiceName 12 34) = .ok 12 34 :=
  ⟨by decide, by decide, C8_codec_roundtrip 12 34 (by decide) (by decide)⟩

/-! ### Theorems: controller multiplexer claims -/

/-- C9 (claim as stated is false): calling `create_instance` for the
already-existing instance 1 — whose state holds replica 5 — does not fail
and does not leave the previous state unchanged: the entry is replaced by a
fresh, empty instance state (and the operation has no error channel at
all). -/
theorem C9_counterexample :
    lookupA (createInstance ⟨[(1, ⟨[5]⟩)], none⟩ 1).compute 1 =
      some freshInstanceState ∧
    some freshInstanceState ≠ some (⟨[5]⟩ : InstanceState) := by
  constructor
  · rfl
  · decide

/-- C9 (amended): `create_instance` cannot fail; for an existing id it
silently replaces the instance state with a freshly initialized one, for a
fresh id it creates the state, and every other entry (and the response
stash) is untouched. -/
theorem C9_create_instance_overwrites (s : ControllerSt) (iid : Nat) :
    lookupA (createInstance s iid).compute iid = some freshInstanceState ∧
    (∀ j : Nat, j ≠ iid → lookupA (createInstance s iid).compute j = lookupA s.compute j) ∧
    (createInstance s iid).stashed = s.stashed := by
  refine ⟨lookupA_insertA_self _ _ _, ?_, rfl⟩
  intro j hj
  exact lookupA_insertA_ne _ _ _ _ hj

/-- C9 witness: creating instance 1 over a state that already has instances
1 and 2 installs the fresh state at 1 and leaves 2 alone. -/
theorem C9_witness :
    lookupA (createInstance ⟨[(1, ⟨[5]⟩), (2, ⟨[6]⟩)], none⟩ 1).compute 1 =
      some freshInstanceState ∧
    lookupA (createInstance ⟨[(1, ⟨[5]⟩), (2, ⟨[6]⟩)], none⟩ 1).compute 2 =
      lookupA [(1, ⟨[5]⟩), (2, ⟨[6]⟩)] 2 :=
  ⟨(C9_create_instance_overwrites ⟨[(1, ⟨[5]⟩), (2, ⟨[6]⟩)], none⟩ 1).1,
   (C9_create_instance_overwrites ⟨[(1, ⟨[5]⟩), (2, ⟨[6]⟩)], none⟩ 1).2.1 2 (by decide)⟩

/-- C10: dropping a compute instance id that is not in the controller map
returns `Ok(())` silently: no orchestrator RPC, no `DropInstance` command,
state unchanged. -/
theorem C10_drop_absent_instance (s : ControllerSt) (iid : Nat) (rpc : RpcResult)
    (h : lookupA s.compute iid = none) :
    dropInstance s iid rpc = .completed .resOk s [] := by
  unfold dropInstance
  rw [h]

/-- C10 witness: dropping instance 3 on a controller that only knows
instance 1 is a silent no-op. -/
theorem C10_witness :
    lookupA [(1, (⟨[4]⟩ : InstanceState))] 3 = none ∧
    dropInstance ⟨[(1, ⟨[4]⟩)], none⟩ 3 .rpcOk =
      .completed .resOk ⟨[(1, ⟨[4]⟩)], none⟩ [] :=
  ⟨rfl, C10_drop_absent_instance ⟨[(1, ⟨[4]⟩)], none⟩ 3 .rpcOk rfl⟩

/-- C4 (claim as stated is false): `drop_instance(2)` on an instance that
still has replica 1 attached does not return a typed error with state
unchanged — it panics (the `assert!` aborts the controller). -/
theorem C4_counterexample :
    dropInstance ⟨[(2, ⟨[1]⟩)], none⟩ 2 .rpcOk = .panicked ∧
    OpOutcome.panicked ≠
      OpOutcome.completed .resErr ⟨[(2, ⟨[1]⟩)], none⟩ [] := by
  constructor
  · rfl
  · decide

/-- C4 (amended): `drop_instance(id)` on an existing instance panics
(programmer-error abort, after having already removed the map entry) if any
replica remains; otherwise it removes the instance state, asks the
orchestrator to drop the instance-level service `cluster-{id}`, and sends
`DropInstance`. -/
theorem C4_drop_instance (s : ControllerSt) (iid : Nat) (st : InstanceState)
    (rpc : RpcResult) (h : lookupA s.compute iid = some st) :
    (st.replicas ≠ [] → dropInstance s iid rpc = .panicked) ∧
    (st.replicas = [] → dropInstance s iid .rpcOk =
      .completed .resOk { s with compute := removeA s.compute iid }
        [.droppedService (instanceServiceName iid),
         .sentComputeCmd iid .dropInstanceCmd]) := by
  constructor
  · intro hne
    unfold dropInstance
    rw [h]
    dsimp only
    rw [if_neg hne]
  · intro he
    unfold dropInstance
    rw [h]
    dsimp only
    rw [if_pos he]

/-- C4 witness: dropping instance 2 once its replica set is empty removes
the state, drops service `cluster-2`, and sends `DropInstance`. -/
theorem C4_witness :
    lookupA [(2, (⟨[]⟩ : InstanceState))] 2 = some ⟨[]⟩ ∧
    dropInstance ⟨[(2, ⟨[]⟩)], none⟩ 2 .rpcOk =
      .completed .resOk ⟨[], none⟩
        [.droppedService (instanceServiceName 2),
         .sentComputeCmd 2 .dropInstanceCmd] :=
  ⟨rfl, (C4_drop_instance ⟨[(2, ⟨[]⟩)], none⟩ 2 ⟨[]⟩ .rpcOk rfl).2 rfl⟩

/-- C3 (claim as stated is false): when the orchestrator's `drop_service`
RPC fails during `drop_instance` of the (replica-free) instance 1, the
error is propagated but the controller state is not what it was before the
call: the instance entry was removed before the RPC. -/
theorem C3_counterexample :
    dropInstance ⟨[(1, ⟨[]⟩)], none⟩ 1 .rpcErr =
      .completed .resErr ⟨[], none⟩ [.droppedService (instanceServiceName 1)] ∧
    (⟨[], none⟩ : ControllerSt) ≠ ⟨[(1, ⟨[]⟩)], none⟩ := by
  constructor
  · rfl
  · decide

/-- C3 (amended): an orchestrator RPC error is propagated to the caller by
all three operations; for `add_replica_to_instance` (`ensure_service`) and
`drop_replica` (`drop_service`) the controller state is exactly what it was
before the call, while for `drop_instance` the failing RPC leaves the
instance entry already removed from the controller map. -/
theorem C3_rpc_error_handling (s : ControllerSt) (iid rid : Nat) (st : InstanceState)
    (h : lookupA s.compute iid = some st) :
    addReplicaToInstance s iid rid .managed .rpcErr =
      .completed .resErr s [.ensuredService (generateReplicaServiceName iid rid)] ∧
    dropReplica s iid rid .managed .rpcErr =
      .completed .resErr s [.droppedService (generateReplicaServiceName iid rid)] ∧
    (st.replicas = [] → dropInstance s iid .rpcErr =
      .completed .resErr { s with compute := removeA s.compute iid }
        [.droppedService (instanceServiceName iid)]) := by
  refine ⟨?_, rfl, ?_⟩
  · unfold addReplicaToInstance
    rw [h]
  · intro he
    unfold dropInstance
    rw [h]
    dsimp only
    rw [if_pos he]

/-- C3 witness: with instance 1 present (no replicas), a failing
`ensure_service` during `add_replica_to_instance(1, 7)` propagates the
error and leaves the state untouched. -/
theorem C3_witness :
    lookupA [(1, (⟨[]⟩ : InstanceState))] 1 = some ⟨[]⟩ ∧
    addReplicaToInstance ⟨[(1, ⟨[]⟩)], none⟩ 1 7 .managed .rpcErr =
      .completed .resErr ⟨[(1, ⟨[]⟩)], none⟩
        [.ensuredService (generateReplicaServiceName 1 7)] :=
  ⟨rfl, (C3_rpc_error_handling ⟨[(1, ⟨[]⟩)], none⟩ 1 7 ⟨[]⟩ rfl).1⟩

/-- C5: if a backend response is already stashed, `ready()` completes with
`Ok(())` immediately and modifies nothing — so a cancelled-and-reinvoked
`ready()` observes exactly the stashed response a completed call would
have — and any completing `process()` leaves the single-slot stash empty. -/
theorem C5_ready_cancel_safe (s : ControllerSt) (r : UnderlyingResponse)
    (arrival : Option UnderlyingResponse) (bookOk : RpcResult)
    (h : s.stashed = some r) :
    readyC s arrival = (.completedOk, s) ∧
    (∀ res s2 eff, processC s bookOk = .completed res s2 eff → s2.stashed = none) := by
  constructor
  · simp [readyC, h]
  · intro res s2 eff hEq
    unfold processC at hEq
    rw [h] at hEq
    rcases r with sr | ⟨iid, ar⟩
    · rcases sr with updates | p
      · cases bookOk <;> (cases hEq; rfl)
      · cases hEq; rfl
    · rcases ar with cr | ⟨rid, t⟩
      · dsimp only at hEq
        rcases hL : lookupA s.compute iid with _ | st
        · rw [hL] at hEq
          cases hEq
        · rw [hL] at hEq
          dsimp only at hEq
          rcases cr with updates | ⟨uuid, pay, ot⟩ | ⟨gid, tt⟩ <;>
            cases bookOk <;> (cases hEq; rfl)
      · cases hEq; rfl

/-- C5 witness: with a `LinearizedTimestamps` response stashed, `ready`
returns immediately leaving the state intact, and the `process` that
follows consumes the stash. -/
theorem C5_witness :
    (⟨[], some (.storageResp (.linearizedTimestamps 5))⟩ : ControllerSt).stashed =
      some (.storageResp (.linearizedTimestamps 5)) ∧
    readyC ⟨[], some (.storageResp (.linearizedTimestamps 5))⟩ none =
      (.completedOk, ⟨[], some (.storageResp (.linearizedTimestamps 5))⟩) ∧
    (⟨[], none⟩ : ControllerSt).stashed = none :=
  ⟨rfl,
   (C5_ready_cancel_safe ⟨[], some (.storageResp (.linearizedTimestamps 5))⟩
     (.storageResp (.linearizedTimestamps 5)) none .rpcOk rfl).1,
   (C5_ready_cancel_safe ⟨[], some (.storageResp (.linearizedTimestamps 5))⟩
     (.storageResp (.linearizedTimestamps 5)) none .rpcOk rfl).2
     (.pok (some (.linearizedTimestamps 5))) ⟨[], none⟩ [] (by decide)⟩

end Mz
